import Mathlib

/-!
Verification of the astrbot_plugin_binance price-monitor plugin.

This file shallowly embeds the Python source of the plugin:

* src/utils/symbol.py          (normalize_symbol)
* src/services/monitor_service.py  (MonitorService: set_price_monitor,
                                    load_price_monitors, _check_all_monitors)
* src/services/price_service.py    (PriceService.get_price)
* src/services/api_key_service.py  (ApiKeyService.bind_api_key / get_api_key)
* src/utils/crypto.py          (encrypt_data / decrypt_data framing)
* src/storage/user.py          (_load_user_data)

Modelling conventions:

* Python strings that are only compared for equality (user ids, monitor ids,
  directions, asset types) are Lean String.
* Python strings that are transformed character-wise (trading-pair symbols)
  and Python byte strings are lists of natural-number code points / byte
  values (List Nat), so that character arithmetic is plain Nat arithmetic.
* Python float prices are modelled as rationals; the claims under study are
  about order comparisons, which floats decide exactly on these values.
* Python dicts are association lists in insertion order (faithful to dict
  iteration order); dict[k] = v replaces in place or appends.
* Network and file-system effects are oracles passed in as arguments: the
  HTTP layer is a function from URL and symbol to a response, reading the
  durable JSON documents is an input summarising what the parse did.
* A raised-and-caught Python exception is an explicit error value.
-/

namespace BinancePlugin

/-! ## src/utils/symbol.py : normalize_symbol -/

/-- ASCII whitespace code points stripped by Python str.strip:
space, tab, newline, vertical tab, form feed, carriage return. -/
def pyIsSpace (c : Nat) : Bool :=
  c == 32 || c == 9 || c == 10 || c == 11 || c == 12 || c == 13

/-- Python str.upper on a single code point, restricted to ASCII:
lower-case letters a..z (97..122) map to A..Z, everything else is fixed. -/
def pyUpperChar (c : Nat) : Nat :=
  if 97 ≤ c ∧ c ≤ 122 then c - 32 else c

/-- Python str.strip: remove leading and trailing whitespace. -/
def pyStrip (s : List Nat) : List Nat :=
  ((s.dropWhile pyIsSpace).reverse.dropWhile pyIsSpace).reverse

/-- Code points of the separators removed by normalize_symbol:
45 is the hyphen, 95 is the underscore. -/
def isSep (c : Nat) : Bool := c == 45 || c == 95

/-- symbol.replace("-", "").replace("_", ""): drop every separator. -/
def removeSeps (s : List Nat) : List Nat :=
  s.filter (fun c => !isSep c)

/-- normalize_symbol from src/utils/symbol.py.  The source raises ValueError
on an empty input and on a result shorter than 4 characters; a raised error
is modelled as none.  Otherwise it removes separators, strips whitespace and
upper-cases, in that order. -/
def normalize_symbol (symbol : List Nat) : Option (List Nat) :=
  if symbol = [] then none
  else
    let normalized := (pyStrip (removeSeps symbol)).map pyUpperChar
    if normalized.length < 4 then none else some normalized

/-- Code points of a Lean string literal, used to write concrete inputs. -/
def codes (s : String) : List Nat := s.data.map Char.toNat

/-! ## src/services/monitor_service.py : data model -/

/-- Monitor record stored under monitors[user_id][monitor_id]; the fields
are exactly the keys written by set_price_monitor. -/
structure MonitorData where
  symbol : List Nat
  asset_type : String
  target_price : Rat
  direction : String
  created_at : Rat
  is_active : Bool
deriving Repr, DecidableEq

/-- Rules of one user: a Python dict monitor_id -> monitor_data in
insertion order. -/
abbrev UserMonitors := List (String × MonitorData)

/-- Full registry: a Python dict user_id -> user_monitors. -/
abbrev MonState := List (String × UserMonitors)

/-- Result of self.price_service.get_price(symbol, asset_type) for one scan:
the call catches every exception internally and returns a price or None. -/
abbrev PriceOracle := List Nat → String → Option Rat

/-- Keys of the asset_type display dictionary built in the trigger branch of
_check_all_monitors; looking up any other asset type raises KeyError. -/
def validAssetTypes : List String := ["spot", "futures", "margin", "alpha"]

/-- One notification_callback invocation, identified by the loop iteration
(user id and monitor id) that produced it, with the data embedded in the
message. -/
structure Notification where
  uid : String
  mid : String
  symbol : List Nat
  price : Rat
deriving Repr, DecidableEq

/-- Trigger predicate of _check_all_monitors (monitor_service.py lines
178-179, core.py lines 652-653): (direction == "up" and current >= target)
or (direction == "down" and current <= target). -/
def triggerFires (direction : String) (current target : Rat) : Bool :=
  (direction == "up" && decide (current ≥ target)) ||
    (direction == "down" && decide (current ≤ target))

/-- Body of the inner for-loop of _check_all_monitors for a single rule.
Returns the rule as left in the in-memory snapshot, the notification sent
for it (if any), and whether the iteration raised an exception.  Inactive
rules are skipped; a failed price fetch leaves the rule untouched; on a
trigger the asset-type display dictionary is consulted first (KeyError for
an asset type outside validAssetTypes, before any notification or state
change), then the callback fires (its own failures are caught inside the
loop) and is_active is set to False. -/
def stepRule (price : PriceOracle) (uid mid : String) (md : MonitorData) :
    MonitorData × Option Notification × Bool :=
  if !md.is_active then (md, none, false)
  else
    match price md.symbol md.asset_type with
    | none => (md, none, false)
    | some cur =>
      if triggerFires md.direction cur md.target_price then
        if validAssetTypes.contains md.asset_type then
          ({ md with is_active := false }, some ⟨uid, mid, md.symbol, cur⟩, false)
        else (md, none, true)
      else (md, none, false)

/-- Inner for-loop of _check_all_monitors over one user's rules, in dict
order.  Returns the in-memory rule list, the notifications sent so far, and
whether an exception escaped a rule iteration (aborting the remaining
iterations). -/
def checkUserRules (price : PriceOracle) (uid : String) :
    UserMonitors → UserMonitors × List Notification × Bool
  | [] => ([], [], false)
  | (mid, md) :: rest =>
    if (stepRule price uid mid md).2.2 then ((mid, md) :: rest, [], true)
    else
      ((mid, (stepRule price uid mid md).1) :: (checkUserRules price uid rest).1,
       (stepRule price uid mid md).2.1.toList ++ (checkUserRules price uid rest).2.1,
       (checkUserRules price uid rest).2.2)

/-- Outer for-loop of _check_all_monitors over all users; an exception in
one user's loop aborts the remaining users as well. -/
def checkUsers (price : PriceOracle) :
    MonState → MonState × List Notification × Bool
  | [] => ([], [], false)
  | (uid, rules) :: rest =>
    if (checkUserRules price uid rules).2.2 then
      ((uid, (checkUserRules price uid rules).1) :: rest,
       (checkUserRules price uid rules).2.1, true)
    else
      ((uid, (checkUserRules price uid rules).1) :: (checkUsers price rest).1,
       (checkUserRules price uid rules).2.1 ++ (checkUsers price rest).2.1,
       (checkUsers price rest).2.2)

/-- One scan cycle: _check_all_monitors.  The registry snapshot st is
loaded, every rule is visited, and save_price_monitors persists the
snapshot; the enclosing try/except means an exception raised inside the
loops skips the save, leaving the durable registry as it was (the
notifications already sent stand).  Returns the durable registry after the
cycle together with the notifications sent during it. -/
def checkAllMonitors (price : PriceOracle) (st : MonState) :
    MonState × List Notification :=
  if (checkUsers price st).2.2 then (st, (checkUsers price st).2.1)
  else ((checkUsers price st).1, (checkUsers price st).2.1)

/-- Repeated scan cycles of _price_monitor_task, one price oracle per cycle
(prices move between cycles).  Returns the final durable registry and all
notifications in order. -/
def runCycles : List PriceOracle → MonState → MonState × List Notification
  | [], st => (st, [])
  | p :: ps, st =>
    ((runCycles ps (checkAllMonitors p st).1).1,
     (checkAllMonitors p st).2 ++ (runCycles ps (checkAllMonitors p st).1).2)

/-- Association-list lookup modelling Python dict access d.get(k). -/
def alookup (k : String) : List (String × α) → Option α
  | [] => none
  | (k', v) :: rest => if k = k' then some v else alookup k rest

/-- Association-list update modelling Python d[k] = v: replace the value in
place if the key is present, append otherwise. -/
def aupdate (k : String) (v : α) : List (String × α) → List (String × α)
  | [] => [(k, v)]
  | (k', v') :: rest =>
    if k = k' then (k, v) :: rest else (k', v') :: aupdate k v rest

/-- Registry lookup monitors[user_id][monitor_id]. -/
def findEntry (uid mid : String) (st : MonState) : Option MonitorData :=
  (alookup uid st).bind (alookup mid)

/-- set_price_monitor from monitor_service.py.  The generated id
str(uuid.uuid4())[:8] is nondeterministic, so it is an input genId; the
current time is an input now.  The symbol is normalized (a ValueError is
caught by the surrounding try and yields None, matching the source
returning None on failure), the rule is written with is_active True, and
the registry is saved.  There is no check of genId against the existing
ids of the user; dict assignment overwrites any rule already stored under
genId.  Returns the monitor id and the new registry. -/
def set_price_monitor (genId uid : String) (symbol : List Nat)
    (asset_type : String) (target_price : Rat) (direction : String)
    (now : Rat) (st : MonState) : Option (String × MonState) :=
  match normalize_symbol symbol with
  | none => none
  | some ns =>
    let md : MonitorData :=
      { symbol := ns, asset_type := asset_type, target_price := target_price,
        direction := direction, created_at := now, is_active := true }
    let userRules := (alookup uid st).getD []
    some (genId, aupdate uid (aupdate genId md userRules) st)

/-! ## src/services/price_service.py : PriceService.get_price -/

/-- HTTP response as seen by get_price: the status code and the value of
the "price" field of the JSON body when that field is present (data.get
returns its default 0 when it is absent). -/
structure HttpResp where
  status : Nat
  price : Option Rat
deriving Repr, DecidableEq

/-- Configured base URLs of PriceService (constructor defaults:
binance_api_url, api_futures_url, api_alpha_url; api_alpha_url falls back
to the spot base URL when not configured). -/
structure PriceConfig where
  api_url : String
  api_futures_url : String
  api_alpha_url : String
deriving Repr, DecidableEq

/-- Outcome of one session.get(url, params={symbol: s}) call; the source
wraps every request in try/except, so the oracle is total. -/
abbrev HttpOracle := String → List Nat → HttpResp

/-- PriceService.get_price from price_service.py.  The symbol is
normalized (ValueError caught by the outer except, giving None); the URL is
chosen by asset type (unknown types give None); on HTTP 200 the price field
is read with data.get("price", 0), so a missing field yields 0.0; on a
non-200 status an alpha query retries once against the spot endpoint and
returns that price on 200, otherwise None. -/
def get_price (cfg : PriceConfig) (fetch : HttpOracle) (symbol : List Nat)
    (asset_type : String) : Option Rat :=
  match normalize_symbol symbol with
  | none => none
  | some ns =>
    let url? : Option String :=
      if asset_type == "spot" then some (cfg.api_url ++ "/api/v3/ticker/price")
      else if asset_type == "futures" then
        some (cfg.api_futures_url ++ "/fapi/v1/ticker/price")
      else if asset_type == "margin" then
        some (cfg.api_url ++ "/sapi/v1/margin/market-price")
      else if asset_type == "alpha" then
        some (cfg.api_alpha_url ++ "/api/v3/ticker/price")
      else none
    match url? with
    | none => none
    | some url =>
      let resp := fetch url ns
      if resp.status == 200 then some (resp.price.getD 0)
      else if asset_type == "alpha" then
        let spotResp := fetch (cfg.api_url ++ "/api/v3/ticker/price") ns
        if spotResp.status == 200 then some (spotResp.price.getD 0) else none
      else none

/-! ## Durable-document loading (monitor_service.py, storage/user.py) -/

/-- Outcome of opening and json.load-ing the price_monitors.json file:
the file may be missing, its content may fail to parse (or any other
exception may occur - all are caught by the same except branch), or it
parses to a registry. -/
inductive MonitorLoad where
  | missing
  | corrupt
  | parsed (d : MonState)

/-- load_price_monitors from monitor_service.py: a missing file gives {},
any exception (including unparseable JSON) is caught and gives {},
otherwise the parsed registry is returned. -/
def load_price_monitors : MonitorLoad → MonState
  | .missing => []
  | .corrupt => []
  | .parsed d => d

/-- Credential store document: user id -> (encrypted api key bytes,
encrypted secret key bytes). -/
abbrev CredStore := List (String × (List Nat × List Nat))

/-- Outcome of json.load on the user-data file (after _init_user_data_file
has ensured it exists): a JSONDecodeError, some other IO error, or a parse. -/
inductive UserLoad where
  | decodeError
  | ioError (d : Unit)
  | parsed (d : CredStore)

/-- Body of _load_user_data from storage/user.py: a json.JSONDecodeError is
caught, the file is reset to an empty structure and {} is returned; any
other exception is re-raised as RuntimeError (modelled as the error case);
otherwise the parsed mapping is returned. -/
def loadUserData : UserLoad → Except Unit CredStore
  | .decodeError => .ok []
  | .ioError _ => .error ()
  | .parsed d => .ok d

/-! ## src/utils/crypto.py and src/services/api_key_service.py

The AES-CBC block cipher, the base64 transport encoding and the UTF-8
string codec are external library primitives, not code of this repository.
The cipher is abstracted as a pair of functions on byte lists taking the
normalized key and the IV; plaintexts and stored ciphertexts are byte
lists, eliding the base64 and UTF-8 bijections that the source applies and
then inverts on both sides.  The logic owned by the repository is modelled
exactly: key normalization key.ljust(32, "0")[:32], PKCS7 block padding,
the iv-prefix framing iv + ciphertext with a 16-byte random IV, and the
read-modify-write of the credential document. -/

/-- AES key normalization from encrypt_data and decrypt_data:
key.ljust(32, "0")[:32] - pad on the right with "0" (byte 48) to 32
characters, then truncate to 32. -/
def normKey (key : List Nat) : List Nat :=
  (key ++ List.replicate (32 - key.length) 48).take 32

/-- PKCS7 padding with 128-bit blocks, as applied by
padding.PKCS7(128).padder(): append n copies of the byte n where
n = 16 - len(data) % 16 (so 1 ≤ n ≤ 16). -/
def pkcs7pad (d : List Nat) : List Nat :=
  d ++ List.replicate (16 - d.length % 16) (16 - d.length % 16)

/-- PKCS7 unpadding as performed by padding.PKCS7(128).unpadder(): the
total length must be a positive multiple of 16, the final byte n must be a
valid pad length 1..16, the last n bytes must all equal n; then the last n
bytes are removed.  A violation raises (modelled as none). -/
def pkcs7unpad (d : List Nat) : Option (List Nat) :=
  d.getLast?.bind fun n =>
    if d.length % 16 = 0 ∧ 1 ≤ n ∧ n ≤ 16 ∧ n ≤ d.length ∧
        d.drop (d.length - n) = List.replicate n n
    then some (d.take (d.length - n)) else none

/-- Abstract AES-256-CBC from the cryptography library: encryption and
decryption over (normalized key, IV, data). -/
abbrev BlockCipher := List Nat → List Nat → List Nat → List Nat

/-- encrypt_data from src/utils/crypto.py over the abstract cipher:
normalize the key, PKCS7-pad the plaintext, encrypt under the given
(random, 16-byte) IV, and return iv + ciphertext. -/
def encrypt_data (aesEnc : BlockCipher) (iv : List Nat)
    (data key : List Nat) : List Nat :=
  iv ++ aesEnc (normKey key) iv (pkcs7pad data)

/-- decrypt_data from src/utils/crypto.py over the abstract cipher:
normalize the key the same way, split the first 16 bytes off as the IV,
decrypt the rest, and remove the PKCS7 padding (a padding error raises,
modelled as none). -/
def decrypt_data (aesDec : BlockCipher) (encdata key : List Nat) :
    Option (List Nat) :=
  pkcs7unpad (aesDec (normKey key) (encdata.take 16) (encdata.drop 16))

/-- ApiKeyService.bind_api_key: encrypt both halves of the credential under
the process-wide key (the two IVs are fresh randomness, passed in), then
store them under the user id in the credential document
read-modify-write. -/
def bind_api_key (aesEnc : BlockCipher) (iv1 iv2 : List Nat)
    (encKey : List Nat) (store : CredStore) (uid : String)
    (api secret : List Nat) : CredStore :=
  aupdate uid (encrypt_data aesEnc iv1 api encKey,
               encrypt_data aesEnc iv2 secret encKey) store

/-- ApiKeyService.get_api_key: look the user up in the credential document;
missing user or falsy (empty) stored fields give None; then decrypt both
halves under the same process-wide key (a decryption error is caught by the
outer except and gives None). -/
def get_api_key (aesDec : BlockCipher) (encKey : List Nat)
    (store : CredStore) (uid : String) : Option (List Nat × List Nat) :=
  match alookup uid store with
  | none => none
  | some (ea, es) =>
    if ea = [] ∨ es = [] then none
    else
      match decrypt_data aesDec ea encKey, decrypt_data aesDec es encKey with
      | some a, some s => some (a, s)
      | _, _ => none

/-! ## Lemmas about normalize_symbol -/

lemma pyUpperChar_idem (c : Nat) : pyUpperChar (pyUpperChar c) = pyUpperChar c := by
  by_cases h : 97 ≤ c ∧ c ≤ 122
  · have h1 : pyUpperChar c = c - 32 := by simp [pyUpperChar, h]
    rw [h1]
    unfold pyUpperChar
    rw [if_neg (by omega)]
  · simp [pyUpperChar, h]

lemma pyIsSpace_pyUpperChar (c : Nat) : pyIsSpace (pyUpperChar c) = pyIsSpace c := by
  by_cases h : 97 ≤ c ∧ c ≤ 122
  · have h1 : pyUpperChar c = c - 32 := by simp [pyUpperChar, h]
    rw [h1]
    have h2 : pyIsSpace (c - 32) = false := by
      simp only [pyIsSpace, Bool.or_eq_false_iff, beq_eq_false_iff_ne, ne_eq]
      omega
    have h3 : pyIsSpace c = false := by
      simp only [pyIsSpace, Bool.or_eq_false_iff, beq_eq_false_iff_ne, ne_eq]
      omega
    rw [h2, h3]
  · simp [pyUpperChar, h]

lemma isSep_pyUpperChar (c : Nat) : isSep (pyUpperChar c) = isSep c := by
  by_cases h : 97 ≤ c ∧ c ≤ 122
  · have h1 : pyUpperChar c = c - 32 := by simp [pyUpperChar, h]
    rw [h1]
    have h2 : isSep (c - 32) = false := by
      simp only [isSep, Bool.or_eq_false_iff, beq_eq_false_iff_ne, ne_eq]
      omega
    have h3 : isSep c = false := by
      simp only [isSep, Bool.or_eq_false_iff, beq_eq_false_iff_ne, ne_eq]
      omega
    rw [h2, h3]
  · simp [pyUpperChar, h]

lemma head_dropWhile_false {α : Type} (p : α → Bool) (l : List α) (x : α)
    (h : (l.dropWhile p).head? = some x) : p x = false := by
  induction l with
  | nil => simp [List.dropWhile] at h
  | cons a t ih =>
    rw [List.dropWhile_cons] at h
    by_cases hp : p a
    · rw [if_pos hp] at h
      exact ih h
    · rw [if_neg hp] at h
      simp at h
      subst h
      simp [hp]

lemma pyStrip_map_upper (l : List Nat) :
    pyStrip (l.map pyUpperChar) = (pyStrip l).map pyUpperChar := by
  have hco : (pyIsSpace ∘ pyUpperChar) = pyIsSpace := funext pyIsSpace_pyUpperChar
  unfold pyStrip
  rw [List.dropWhile_map, hco, ← List.map_reverse, List.dropWhile_map, hco,
    ← List.map_reverse]

lemma dropWhile_pyStrip (l : List Nat) :
    (pyStrip l).dropWhile pyIsSpace = pyStrip l := by
  show ((l.dropWhile pyIsSpace).reverse.dropWhile pyIsSpace).reverse.dropWhile
      pyIsSpace = pyStrip l
  set a := l.dropWhile pyIsSpace with ha
  set b := a.reverse.dropWhile pyIsSpace with hb
  have hgoal : pyStrip l = b.reverse := rfl
  rw [hgoal]
  have hsuf : b <:+ a.reverse := List.dropWhile_suffix pyIsSpace
  have hpre : b.reverse <+: a := by
    have h2 : b.reverse <+: a.reverse.reverse := List.reverse_prefix.mpr hsuf
    rwa [List.reverse_reverse] at h2
  cases hbr : b.reverse with
  | nil => simp
  | cons x xs =>
    obtain ⟨t, ht⟩ := hpre
    rw [hbr] at ht
    have hx : a.head? = some x := by
      rw [← ht]
      rfl
    have hpx : pyIsSpace x = false := head_dropWhile_false pyIsSpace l x (by rw [← ha]; exact hx)
    rw [List.dropWhile_cons, if_neg (by simp [hpx])]

lemma pyStrip_idem (l : List Nat) : pyStrip (pyStrip l) = pyStrip l := by
  conv_lhs =>
    rw [show pyStrip (pyStrip l) =
      (((pyStrip l).dropWhile pyIsSpace).reverse.dropWhile pyIsSpace).reverse from rfl]
  rw [dropWhile_pyStrip]
  rw [show (pyStrip l).reverse =
    (l.dropWhile pyIsSpace).reverse.dropWhile pyIsSpace from by
      unfold pyStrip; rw [List.reverse_reverse]]
  rw [List.dropWhile_idempotent (p := pyIsSpace)]
  rfl

lemma mem_pyStrip {x : Nat} {l : List Nat} (hx : x ∈ pyStrip l) : x ∈ l := by
  unfold pyStrip at hx
  rw [List.mem_reverse] at hx
  have h1 := (List.dropWhile_suffix pyIsSpace).subset hx
  rw [List.mem_reverse] at h1
  exact (List.dropWhile_suffix pyIsSpace).subset h1

lemma map_pyUpperChar_fixed (l : List Nat) :
    (l.map pyUpperChar).map pyUpperChar = l.map pyUpperChar := by
  have h : pyUpperChar ∘ pyUpperChar = pyUpperChar := funext pyUpperChar_idem
  rw [List.map_map, h]

lemma removeSeps_eq_self (l : List Nat) (h : ∀ x ∈ l, isSep x = false) :
    removeSeps l = l := by
  unfold removeSeps
  apply List.filter_eq_self.mpr
  intro a ha
  simp [h a ha]

/-- C7: symbol normalization is idempotent: whenever normalize_symbol
accepts x and returns the canonical symbol y, applying normalize_symbol to
y returns y unchanged. -/
theorem claim_C7_normalize_idempotent (x y : List Nat)
    (h : normalize_symbol x = some y) : normalize_symbol y = some y := by
  unfold normalize_symbol at h
  by_cases hx : x = []
  · rw [if_pos hx] at h
    exact absurd h (by simp)
  · rw [if_neg hx] at h
    simp only at h
    by_cases hlen : ((pyStrip (removeSeps x)).map pyUpperChar).length < 4
    · rw [if_pos hlen] at h
      exact absurd h (by simp)
    · rw [if_neg hlen] at h
      have hy : (pyStrip (removeSeps x)).map pyUpperChar = y := Option.some.inj h
      subst hy
      set z := pyStrip (removeSeps x) with hz
      have h1 : z.map pyUpperChar ≠ [] := by
        intro hc
        rw [hc] at hlen
        simp at hlen
      have h2 : removeSeps (z.map pyUpperChar) = z.map pyUpperChar := by
        apply removeSeps_eq_self
        intro a ha
        obtain ⟨b, hb, rfl⟩ := List.mem_map.mp ha
        have hbx : b ∈ removeSeps x := mem_pyStrip (hz ▸ hb)
        have hsep : isSep b = false := by
          have := (List.mem_filter.mp hbx).2
          simpa using this
        rw [isSep_pyUpperChar, hsep]
      have h3 : pyStrip (z.map pyUpperChar) = z.map pyUpperChar := by
        rw [pyStrip_map_upper, hz, pyStrip_idem]
      unfold normalize_symbol
      rw [if_neg h1]
      simp only
      rw [h2, h3, map_pyUpperChar_fixed, if_neg hlen]

/-- C7 witness: normalizing btc-usdt yields BTCUSDT, and normalizing
BTCUSDT again yields BTCUSDT. -/
theorem claim_C7_normalize_idempotent_witness :
    normalize_symbol (codes "BTCUSDT") = some (codes "BTCUSDT") :=
  claim_C7_normalize_idempotent (codes "btc-usdt") (codes "BTCUSDT") (by decide)

/-! ## Lemmas about the association-list model of Python dicts -/

lemma alookup_aupdate_self {α : Type} (k : String) (v : α) (l : List (String × α)) :
    alookup k (aupdate k v l) = some v := by
  induction l with
  | nil => simp [aupdate, alookup]
  | cons h t ih =>
    by_cases hk : k = h.1
    · simp [aupdate, hk, alookup]
    · simp only [aupdate]
      rw [if_neg (by exact fun hc => hk (by rw [hc]))]
      simp only [alookup]
      rw [if_neg hk]
      exact ih

lemma alookup_mem {α : Type} {k : String} {v : α} {l : List (String × α)}
    (h : alookup k l = some v) : (k, v) ∈ l := by
  induction l with
  | nil => simp [alookup] at h
  | cons hd t ih =>
    simp only [alookup] at h
    by_cases hk : k = hd.1
    · rw [if_pos hk] at h
      have hv : v = hd.2 := (Option.some.inj h).symm
      subst hk
      subst hv
      exact List.mem_cons_self _ _
    · rw [if_neg hk] at h
      exact List.mem_cons_of_mem hd (ih h)

lemma mem_alookup_of_nodup {α : Type} {k : String} {v : α} {l : List (String × α)}
    (hmem : (k, v) ∈ l) (hnd : (l.map Prod.fst).Nodup) : alookup k l = some v := by
  induction l with
  | nil => simp at hmem
  | cons hd t ih =>
    simp only [List.map_cons, List.nodup_cons] at hnd
    rcases List.mem_cons.mp hmem with hh | ht
    · rw [← hh]
      simp [alookup]
    · simp only [alookup]
      by_cases hk : k = hd.1
      · exfalso
        apply hnd.1
        rw [← hk]
        exact List.mem_map.mpr ⟨(k, v), ht, rfl⟩
      · rw [if_neg hk]
        exact ih ht hnd.2

/-- C5 counterexample: with an owner who already has a rule stored under id
abc12345, a create whose generated uuid prefix collides with that id is not
regenerated: set_price_monitor returns the colliding id and the old rule
(BTCUSDT, target 1) has been silently replaced by the new rule (ETHUSDT,
target 2). -/
theorem claim_C5_counterexample :
    set_price_monitor "abc12345" "u" (codes "ETHUSDT") "spot" 2 "up" 5
      [("u", [("abc12345",
        { symbol := codes "BTCUSDT", asset_type := "spot", target_price := 1,
          direction := "up", created_at := 0, is_active := true })])] =
      some ("abc12345",
        [("u", [("abc12345",
          { symbol := codes "ETHUSDT", asset_type := "spot", target_price := 2,
            direction := "up", created_at := 5, is_active := true })])]) ∧
    codes "ETHUSDT" ≠ codes "BTCUSDT" := by decide

/-- C5 amended: create stores the new rule as active under the generated id
genId taken verbatim from the first eight characters of a fresh uuid4, with
no collision check against the owner's existing ids; if genId already names
a rule of this owner, that rule is silently overwritten. -/
theorem claim_C5_create_stores_active (genId uid : String) (symbol ns : List Nat)
    (asset_type : String) (target : Rat) (direction : String) (now : Rat)
    (st : MonState) (hn : normalize_symbol symbol = some ns) :
    ∃ st', set_price_monitor genId uid symbol asset_type target direction now st =
        some (genId, st') ∧
      findEntry uid genId st' = some
        { symbol := ns, asset_type := asset_type, target_price := target,
          direction := direction, created_at := now, is_active := true } := by
  unfold set_price_monitor
  rw [hn]
  refine ⟨_, rfl, ?_⟩
  unfold findEntry
  rw [alookup_aupdate_self]
  exact alookup_aupdate_self ..

/-- C5 witness for the amended theorem: creating a BTCUSDT monitor for user
u in an empty registry stores it under the generated id as active. -/
theorem claim_C5_create_stores_active_witness :
    ∃ st', set_price_monitor "deadbeef" "u" (codes "BTCUSDT") "spot" 50000 "up" 0 [] =
        some ("deadbeef", st') ∧
      findEntry "u" "deadbeef" st' = some
        { symbol := codes "BTCUSDT", asset_type := "spot", target_price := 50000,
          direction := "up", created_at := 0, is_active := true } :=
  claim_C5_create_stores_active "deadbeef" "u" (codes "BTCUSDT") (codes "BTCUSDT")
    "spot" 50000 "up" 0 [] (by decide)

/-- C9: loading either durable document with corrupt or unparseable content
yields the empty mapping instead of a fatal error: the monitor registry
loader returns {} on any load exception (and on a missing file), and the
user-data loader returns {} on a JSON decode error. -/
theorem claim_C9_corrupt_load_resets :
    load_price_monitors .corrupt = [] ∧ load_price_monitors .missing = [] ∧
    loadUserData .decodeError = .ok [] := ⟨rfl, rfl, rfl⟩

/-! ## PKCS7 round trip and the credential round trip (C6) -/

lemma pkcs7_roundtrip (d : List Nat) : pkcs7unpad (pkcs7pad d) = some d := by
  unfold pkcs7pad pkcs7unpad
  set n := 16 - d.length % 16 with hn
  have hn1 : 1 ≤ n ∧ n ≤ 16 := by omega
  have hrep : List.replicate n n ≠ [] := by
    intro hc
    have := congrArg List.length hc
    simp at this
    omega
  have hlast : (d ++ List.replicate n n).getLast? = some n := by
    rw [List.getLast?_append_of_ne_nil d hrep]
    obtain ⟨m, hm⟩ : ∃ m, n = m + 1 := ⟨n - 1, by omega⟩
    rw [hm, List.replicate_succ', List.getLast?_concat]
  rw [hlast, Option.some_bind]
  have hlen : (d ++ List.replicate n n).length = d.length + n := by simp
  have hsub : (d ++ List.replicate n n).length - n = d.length := by
    rw [hlen]
    omega
  have hcond : (d ++ List.replicate n n).length % 16 = 0 ∧ 1 ≤ n ∧ n ≤ 16 ∧
      n ≤ (d ++ List.replicate n n).length ∧
      (d ++ List.replicate n n).drop ((d ++ List.replicate n n).length - n) =
        List.replicate n n := by
    refine ⟨by rw [hlen]; omega, hn1.1, hn1.2, by rw [hlen]; omega, ?_⟩
    rw [hsub]
    exact List.drop_left d _
  rw [if_pos hcond, hsub, List.take_left]

/-- C6: binding a credential and then immediately looking it up returns the
original plaintext pair exactly: under any cipher whose decryption inverts
its encryption for the same key and IV, get_api_key after bind_api_key for
the same owner and the same process-wide key recovers (api, secret). -/
theorem claim_C6_bind_lookup_roundtrip (aesE aesD : BlockCipher)
    (iv1 iv2 key : List Nat) (store : CredStore) (uid : String)
    (api secret : List Nat)
    (hinv : ∀ k iv d, aesD k iv (aesE k iv d) = d)
    (h1 : iv1.length = 16) (h2 : iv2.length = 16) :
    get_api_key aesD key (bind_api_key aesE iv1 iv2 key store uid api secret) uid =
      some (api, secret) := by
  have hd1 : decrypt_data aesD (encrypt_data aesE iv1 api key) key = some api := by
    unfold encrypt_data decrypt_data
    rw [List.take_left' h1, List.drop_left' h1, hinv, pkcs7_roundtrip]
  have hd2 : decrypt_data aesD (encrypt_data aesE iv2 secret key) key = some secret := by
    unfold encrypt_data decrypt_data
    rw [List.take_left' h2, List.drop_left' h2, hinv, pkcs7_roundtrip]
  have he1 : encrypt_data aesE iv1 api key ≠ [] := by
    unfold encrypt_data
    intro hc
    have hl := congrArg List.length hc
    rw [List.length_append, h1] at hl
    simp at hl
  have he2 : encrypt_data aesE iv2 secret key ≠ [] := by
    unfold encrypt_data
    intro hc
    have hl := congrArg List.length hc
    rw [List.length_append, h2] at hl
    simp at hl
  unfold bind_api_key get_api_key
  rw [alookup_aupdate_self]
  simp only
  rw [if_neg (not_or.mpr ⟨he1, he2⟩), hd1, hd2]

/-- C6 witness: with the identity cipher, 16-byte IVs and a concrete store,
binding the pair ([1,2,3],[4,5]) for user u and looking it up returns the
pair unchanged. -/
theorem claim_C6_bind_lookup_roundtrip_witness :
    get_api_key (fun _ _ c => c) (codes "k")
      (bind_api_key (fun _ _ d => d) (List.replicate 16 0) (List.replicate 16 1)
        (codes "k") [] "u" [1, 2, 3] [4, 5]) "u" = some ([1, 2, 3], [4, 5]) :=
  claim_C6_bind_lookup_roundtrip (fun _ _ d => d) (fun _ _ c => c)
    (List.replicate 16 0) (List.replicate 16 1) (codes "k") [] "u" [1, 2, 3] [4, 5]
    (fun _ _ _ => rfl) (by decide) (by decide)

/-- C8: when an alpha price query fails against the alpha endpoint (non-200
status), get_price falls back to the spot endpoint for the same symbol and
returns the spot price if that fallback returns 200; only if the spot
fallback also fails does the alpha query return failure. -/
theorem claim_C8_alpha_falls_back_to_spot (cfg : PriceConfig) (fetch : HttpOracle)
    (symbol ns : List Nat)
    (hn : normalize_symbol symbol = some ns)
    (hfail : (fetch (cfg.api_alpha_url ++ "/api/v3/ticker/price") ns).status ≠ 200) :
    get_price cfg fetch symbol "alpha" =
      if (fetch (cfg.api_url ++ "/api/v3/ticker/price") ns).status = 200
      then some ((fetch (cfg.api_url ++ "/api/v3/ticker/price") ns).price.getD 0)
      else none := by
  unfold get_price
  rw [hn]
  simp only [show (("alpha" : String) == "spot") = false from rfl,
    show (("alpha" : String) == "futures") = false from rfl,
    show (("alpha" : String) == "margin") = false from rfl,
    show (("alpha" : String) == "alpha") = true from rfl,
    Bool.false_eq_true, eq_self_iff_true, if_false, if_true]
  rw [if_neg (by simpa using hfail)]
  by_cases hs : (fetch (cfg.api_url ++ "/api/v3/ticker/price") ns).status = 200
  · rw [if_pos (by simpa using hs), if_pos hs]
  · rw [if_neg (by simpa using hs), if_neg hs]

/-- C8 witness: with a fetch oracle that returns 500 on the alpha base URL
and 200 with price 7 on the spot base URL, an alpha query returns 7. -/
theorem claim_C8_alpha_falls_back_to_spot_witness :
    get_price ⟨"S", "F", "A"⟩
      (fun url _ => if url = "S/api/v3/ticker/price" then ⟨200, some 7⟩
        else ⟨500, none⟩)
      (codes "BTCUSDT") "alpha" =
      if (if ("S/api/v3/ticker/price" : String) = "S/api/v3/ticker/price"
            then (⟨200, some 7⟩ : HttpResp) else ⟨500, none⟩).status = 200
      then some ((if ("S/api/v3/ticker/price" : String) = "S/api/v3/ticker/price"
            then (⟨200, some 7⟩ : HttpResp) else ⟨500, none⟩).price.getD 0)
      else none :=
  claim_C8_alpha_falls_back_to_spot ⟨"S", "F", "A"⟩
    (fun url _ => if url = "S/api/v3/ticker/price" then ⟨200, some 7⟩ else ⟨500, none⟩)
    (codes "BTCUSDT") (codes "BTCUSDT") (by decide) (by decide)

/-! ## Scan-cycle lemmas (C1 - C4, C10) -/

/-- C1: for an active rule whose price fetch succeeded (and whose asset
type is one of the four display classes), the scan step fires a
notification exactly when direction is up and the current price is at or
above the target, or direction is down and the current price is at or
below the target; the boundary is non-strict, so equality fires in both
directions. -/
theorem claim_C1_trigger_boundary (price : PriceOracle) (uid mid : String)
    (md : MonitorData) (cur : Rat)
    (hact : md.is_active = true)
    (hp : price md.symbol md.asset_type = some cur)
    (hv : md.asset_type ∈ validAssetTypes) :
    (stepRule price uid mid md).2.1.isSome = true ↔
      ((md.direction = "up" ∧ cur ≥ md.target_price) ∨
       (md.direction = "down" ∧ cur ≤ md.target_price)) := by
  unfold stepRule
  rw [hact, hp]
  simp only [Bool.not_true, Bool.false_eq_true, if_false]
  have hcont : validAssetTypes.contains md.asset_type = true := by
    simp only [validAssetTypes, List.mem_cons, List.not_mem_nil, or_false] at hv
    rcases hv with h | h | h | h <;> rw [h] <;> rfl
  by_cases ht : triggerFires md.direction cur md.target_price
  · rw [if_pos ht, if_pos hcont]
    simp only [Option.isSome_some, true_iff]
    simpa only [triggerFires, Bool.or_eq_true, Bool.and_eq_true, beq_iff_eq,
      decide_eq_true_eq] using ht
  · rw [if_neg ht]
    simp only [Option.isSome_none, Bool.false_eq_true, false_iff]
    intro hc
    apply ht
    simp only [triggerFires, Bool.or_eq_true, Bool.and_eq_true, beq_iff_eq,
      decide_eq_true_eq]
    exact hc

/-- C1 witness: an active spot rule with direction up and target 50000,
with a fetched current price of exactly 50000, fires (the boundary is
inclusive). -/
theorem claim_C1_trigger_boundary_witness :
    (stepRule (fun _ _ => some 50000) "u" "m"
      { symbol := codes "BTCUSDT", asset_type := "spot", target_price := 50000,
        direction := "up", created_at := 0, is_active := true }).2.1.isSome = true ↔
      ((("up" : String) = "up" ∧ (50000 : Rat) ≥ 50000) ∨
       (("up" : String) = "down" ∧ (50000 : Rat) ≤ 50000)) :=
  claim_C1_trigger_boundary (fun _ _ => some 50000) "u" "m"
    { symbol := codes "BTCUSDT", asset_type := "spot", target_price := 50000,
      direction := "up", created_at := 0, is_active := true } 50000
    rfl rfl (by decide)

/-! ## State well-formedness (Python dict shape and the data-model
asset-class invariant) -/

/-- Registry well-formedness that Python dicts guarantee by construction:
user ids are unique, and each user's monitor ids are unique. -/
def nodupKeys (st : MonState) : Prop :=
  (st.map Prod.fst).Nodup ∧ ∀ ur ∈ st, (ur.2.map Prod.fst).Nodup

/-- Data-model invariant of the spec (and of every rule created through the
command handler, which validates the asset type): every stored rule's
asset_type is one of the four display classes. -/
def validTypesState (st : MonState) : Prop :=
  ∀ ur ∈ st, ∀ mm ∈ ur.2, mm.2.asset_type ∈ validAssetTypes

/-! ## Basic facts about stepRule -/

lemma stepRule_inactive (p : PriceOracle) (u m : String) (md : MonitorData)
    (h : md.is_active = false) : stepRule p u m md = (md, none, false) := by
  simp [stepRule, h]

lemma stepRule_price_none (p : PriceOracle) (u m : String) (md : MonitorData)
    (h : p md.symbol md.asset_type = none) : stepRule p u m md = (md, none, false) := by
  unfold stepRule
  by_cases ha : md.is_active
  · rw [ha]
    simp [h]
  · simp [Bool.not_eq_true] at ha
    rw [ha]
    rfl

lemma contains_of_mem_validAssetTypes (s : String) (hv : s ∈ validAssetTypes) :
    validAssetTypes.contains s = true := by
  simp only [validAssetTypes, List.mem_cons, List.not_mem_nil, or_false] at hv
  rcases hv with h | h | h | h <;> rw [h] <;> rfl

lemma stepRule_cases (p : PriceOracle) (u m : String) (md : MonitorData) :
    stepRule p u m md = (md, none, false) ∨
    (validAssetTypes.contains md.asset_type = false ∧
      stepRule p u m md = (md, none, true)) ∨
    (∃ cur, p md.symbol md.asset_type = some cur ∧ md.is_active = true ∧
      validAssetTypes.contains md.asset_type = true ∧
      stepRule p u m md =
        ({ md with is_active := false }, some ⟨u, m, md.symbol, cur⟩, false)) := by
  by_cases ha : md.is_active
  · cases hp : p md.symbol md.asset_type with
    | none => exact Or.inl (stepRule_price_none p u m md hp)
    | some cur =>
      by_cases ht : triggerFires md.direction cur md.target_price
      · by_cases hcm : md.asset_type ∈ validAssetTypes
        · exact Or.inr (Or.inr ⟨cur, rfl, ha, contains_of_mem_validAssetTypes _ hcm,
            by simp [stepRule, ha, hp, ht, hcm]⟩)
        · refine Or.inr (Or.inl ⟨by simpa using hcm, ?_⟩)
          simp [stepRule, ha, hp, ht, hcm]
      · exact Or.inl (by simp [stepRule, ha, hp, ht])
  · simp only [Bool.not_eq_true] at ha
    exact Or.inl (stepRule_inactive p u m md ha)

lemma stepRule_notif (p : PriceOracle) (u m : String) (md : MonitorData)
    (n : Notification) (h : (stepRule p u m md).2.1 = some n) :
    n.uid = u ∧ n.mid = m ∧ md.is_active = true ∧
      (stepRule p u m md).1 = { md with is_active := false } := by
  rcases stepRule_cases p u m md with hc | ⟨_, hc⟩ | ⟨cur, _, ha, _, hc⟩
  · rw [hc] at h
    simp at h
  · rw [hc] at h
    simp at h
  · rw [hc] at h ⊢
    have hn := Option.some.inj h
    rw [← hn]
    exact ⟨rfl, rfl, ha, rfl⟩

lemma stepRule_valid_not_raised (p : PriceOracle) (u m : String) (md : MonitorData)
    (hv : md.asset_type ∈ validAssetTypes) : (stepRule p u m md).2.2 = false := by
  rcases stepRule_cases p u m md with hc | ⟨hb, hc⟩ | ⟨cur, _, _, _, hc⟩
  · rw [hc]
  · rw [contains_of_mem_validAssetTypes md.asset_type hv] at hb
    exact absurd hb (by simp)
  · rw [hc]

lemma stepRule_raised (p : PriceOracle) (u m : String) (md : MonitorData)
    (h : (stepRule p u m md).2.2 = true) : stepRule p u m md = (md, none, true) := by
  rcases stepRule_cases p u m md with hc | ⟨_, hc⟩ | ⟨cur, _, _, _, hc⟩
  · rw [hc] at h
    simp at h
  · exact hc
  · rw [hc] at h
    simp at h

lemma alookup_cons {α : Type} (k : String) (hd : String × α) (t : List (String × α)) :
    alookup k (hd :: t) = if k = hd.1 then some hd.2 else alookup k t := rfl

lemma checkUserRules_cons (p : PriceOracle) (u m0 : String) (md0 : MonitorData)
    (t : UserMonitors) :
    checkUserRules p u ((m0, md0) :: t) =
      if (stepRule p u m0 md0).2.2 then ((m0, md0) :: t, [], true)
      else
        ((m0, (stepRule p u m0 md0).1) :: (checkUserRules p u t).1,
         (stepRule p u m0 md0).2.1.toList ++ (checkUserRules p u t).2.1,
         (checkUserRules p u t).2.2) := rfl

lemma checkUsers_cons (p : PriceOracle) (u0 : String) (rules0 : UserMonitors)
    (t : MonState) :
    checkUsers p ((u0, rules0) :: t) =
      if (checkUserRules p u0 rules0).2.2 then
        ((u0, (checkUserRules p u0 rules0).1) :: t,
         (checkUserRules p u0 rules0).2.1, true)
      else
        ((u0, (checkUserRules p u0 rules0).1) :: (checkUsers p t).1,
         (checkUserRules p u0 rules0).2.1 ++ (checkUsers p t).2.1,
         (checkUsers p t).2.2) := rfl

lemma checkAllMonitors_notifs (p : PriceOracle) (st : MonState) :
    (checkAllMonitors p st).2 = (checkUsers p st).2.1 := by
  unfold checkAllMonitors
  by_cases hr : (checkUsers p st).2.2
  · rw [if_pos hr]
  · rw [if_neg hr]

lemma checkUserRules_notif_source (p : PriceOracle) (u : String)
    (rules : UserMonitors) (n : Notification)
    (hn : n ∈ (checkUserRules p u rules).2.1) :
    ∃ mm ∈ rules, (stepRule p u mm.1 mm.2).2.1 = some n := by
  induction rules with
  | nil => simp [checkUserRules] at hn
  | cons hd t ih =>
    obtain ⟨m0, md0⟩ := hd
    rw [checkUserRules_cons] at hn
    by_cases hr : (stepRule p u m0 md0).2.2
    · rw [if_pos hr] at hn
      simp at hn
    · rw [if_neg hr] at hn
      simp only at hn
      rcases List.mem_append.mp hn with hl | hr2
      · refine ⟨(m0, md0), List.mem_cons_self _ _, ?_⟩
        cases ho : (stepRule p u m0 md0).2.1 with
        | none =>
          rw [ho] at hl
          simp [Option.toList] at hl
        | some n0 =>
          rw [ho] at hl
          simp [Option.toList] at hl
          rw [hl]
      · obtain ⟨mm, hmm, h⟩ := ih hr2
        exact ⟨mm, List.mem_cons_of_mem _ hmm, h⟩

lemma checkUsers_notif_source (p : PriceOracle) (st : MonState) (n : Notification)
    (hn : n ∈ (checkUsers p st).2.1) :
    ∃ ur ∈ st, ∃ mm ∈ ur.2, (stepRule p ur.1 mm.1 mm.2).2.1 = some n := by
  induction st with
  | nil => simp [checkUsers] at hn
  | cons hd t ih =>
    obtain ⟨u0, rules0⟩ := hd
    rw [checkUsers_cons] at hn
    by_cases hr : (checkUserRules p u0 rules0).2.2
    · rw [if_pos hr] at hn
      simp only at hn
      obtain ⟨mm, hmm, h⟩ := checkUserRules_notif_source p u0 rules0 n hn
      exact ⟨(u0, rules0), List.mem_cons_self _ _, mm, hmm, h⟩
    · rw [if_neg hr] at hn
      simp only at hn
      rcases List.mem_append.mp hn with hl | hr2
      · obtain ⟨mm, hmm, h⟩ := checkUserRules_notif_source p u0 rules0 n hl
        exact ⟨(u0, rules0), List.mem_cons_self _ _, mm, hmm, h⟩
      · obtain ⟨ur, hur, mm, hmm, h⟩ := ih hr2
        exact ⟨ur, List.mem_cons_of_mem _ hur, mm, hmm, h⟩

lemma checkUserRules_preserved (p : PriceOracle) (u : String) (rules : UserMonitors)
    (mid : String) (md : MonitorData)
    (hl : alookup mid rules = some md)
    (hstep : stepRule p u mid md = (md, none, false)) :
    alookup mid (checkUserRules p u rules).1 = some md := by
  induction rules with
  | nil => simp [alookup] at hl
  | cons hd t ih =>
    obtain ⟨m0, md0⟩ := hd
    rw [alookup_cons] at hl
    rw [checkUserRules_cons]
    by_cases hm : mid = m0
    · rw [if_pos hm] at hl
      have hmd : md0 = md := Option.some.inj hl
      subst hmd
      subst hm
      rw [hstep]
      simp [alookup]
    · rw [if_neg hm] at hl
      by_cases hr : (stepRule p u m0 md0).2.2
      · rw [if_pos hr]
        simp only
        rw [alookup_cons, if_neg hm]
        exact hl
      · rw [if_neg hr]
        simp only
        rw [alookup_cons, if_neg hm]
        exact ih hl

lemma checkUsers_preserved (p : PriceOracle) (st : MonState) (uid mid : String)
    (md : MonitorData)
    (hfind : findEntry uid mid st = some md)
    (hstep : stepRule p uid mid md = (md, none, false)) :
    findEntry uid mid (checkUsers p st).1 = some md := by
  induction st with
  | nil => simp [findEntry, alookup] at hfind
  | cons hd t ih =>
    obtain ⟨u0, rules0⟩ := hd
    unfold findEntry at hfind ⊢
    rw [alookup_cons] at hfind
    rw [checkUsers_cons]
    by_cases hu : uid = u0
    · rw [if_pos hu] at hfind
      simp only [Option.some_bind] at hfind
      subst hu
      by_cases hr : (checkUserRules p uid rules0).2.2
      · rw [if_pos hr]
        simp only
        rw [alookup_cons, if_pos rfl, Option.some_bind]
        exact checkUserRules_preserved p uid rules0 mid md hfind hstep
      · rw [if_neg hr]
        simp only
        rw [alookup_cons, if_pos rfl, Option.some_bind]
        exact checkUserRules_preserved p uid rules0 mid md hfind hstep
    · rw [if_neg hu] at hfind
      by_cases hr : (checkUserRules p u0 rules0).2.2
      · rw [if_pos hr]
        simp only
        rw [alookup_cons, if_neg hu]
        exact hfind
      · rw [if_neg hr]
        simp only
        rw [alookup_cons, if_neg hu]
        exact ih hfind

lemma cycle_preserved (p : PriceOracle) (st : MonState) (uid mid : String)
    (md : MonitorData)
    (hfind : findEntry uid mid st = some md)
    (hstep : stepRule p uid mid md = (md, none, false)) :
    findEntry uid mid (checkAllMonitors p st).1 = some md := by
  unfold checkAllMonitors
  by_cases hr : (checkUsers p st).2.2
  · rw [if_pos hr]
    exact hfind
  · rw [if_neg hr]
    exact checkUsers_preserved p st uid mid md hfind hstep

lemma no_notif_of_step_skip (p : PriceOracle) (st : MonState) (uid mid : String)
    (md : MonitorData)
    (hnd : nodupKeys st)
    (hfind : findEntry uid mid st = some md)
    (hnone : (stepRule p uid mid md).2.1 = none) :
    ∀ n ∈ (checkAllMonitors p st).2, ¬(n.uid = uid ∧ n.mid = mid) := by
  intro n hn ⟨hnu, hnm⟩
  rw [checkAllMonitors_notifs] at hn
  obtain ⟨ur, hur, mm, hmm, hsome⟩ := checkUsers_notif_source p st n hn
  obtain ⟨hu, hm, _, _⟩ := stepRule_notif p ur.1 mm.1 mm.2 n hsome
  unfold findEntry at hfind
  cases har : alookup uid st with
  | none =>
    rw [har] at hfind
    simp at hfind
  | some rules =>
    rw [har] at hfind
    simp only [Option.some_bind] at hfind
    have hur2 : alookup ur.1 st = some ur.2 := mem_alookup_of_nodup hur hnd.1
    have huru : ur.1 = uid := by rw [← hu, hnu]
    rw [huru, har] at hur2
    have hrules : ur.2 = rules := (Option.some.inj hur2).symm
    have hmm2 : alookup mm.1 ur.2 = some mm.2 :=
      mem_alookup_of_nodup hmm (hnd.2 ur hur)
    have hmmu : mm.1 = mid := by rw [← hm, hnm]
    rw [hmmu, hrules, hfind] at hmm2
    have hmd : mm.2 = md := (Option.some.inj hmm2).symm
    rw [huru, hmmu, hmd, hnone] at hsome
    exact absurd hsome (by simp)

lemma cycle_skip (p : PriceOracle) (st : MonState) (uid mid : String)
    (md : MonitorData)
    (hnd : nodupKeys st)
    (hfind : findEntry uid mid st = some md)
    (hstep : stepRule p uid mid md = (md, none, false)) :
    findEntry uid mid (checkAllMonitors p st).1 = some md ∧
      ∀ n ∈ (checkAllMonitors p st).2, ¬(n.uid = uid ∧ n.mid = mid) :=
  ⟨cycle_preserved p st uid mid md hfind hstep,
   no_notif_of_step_skip p st uid mid md hnd hfind (by rw [hstep])⟩

lemma checkUserRules_fst (p : PriceOracle) (u : String) (rules : UserMonitors) :
    ((checkUserRules p u rules).1).map Prod.fst = rules.map Prod.fst := by
  induction rules with
  | nil => rfl
  | cons hd t ih =>
    obtain ⟨m0, md0⟩ := hd
    rw [checkUserRules_cons]
    by_cases hr : (stepRule p u m0 md0).2.2
    · rw [if_pos hr]
    · rw [if_neg hr]
      simp only [List.map_cons]
      rw [ih]

lemma checkUsers_fst (p : PriceOracle) (st : MonState) :
    ((checkUsers p st).1).map Prod.fst = st.map Prod.fst := by
  induction st with
  | nil => rfl
  | cons hd t ih =>
    obtain ⟨u0, rules0⟩ := hd
    rw [checkUsers_cons]
    by_cases hr : (checkUserRules p u0 rules0).2.2
    · rw [if_pos hr]
      simp
    · rw [if_neg hr]
      simp only [List.map_cons]
      rw [ih]

lemma checkUsers_shape (p : PriceOracle) (st : MonState) :
    ∀ ur ∈ (checkUsers p st).1,
      ∃ rules, (ur.1, rules) ∈ st ∧ ur.2.map Prod.fst = rules.map Prod.fst := by
  induction st with
  | nil => simp [checkUsers]
  | cons hd t ih =>
    obtain ⟨u0, rules0⟩ := hd
    rw [checkUsers_cons]
    by_cases hr : (checkUserRules p u0 rules0).2.2
    · rw [if_pos hr]
      intro ur hur
      simp only at hur
      rcases List.mem_cons.mp hur with hh | ht
      · subst hh
        exact ⟨rules0, List.mem_cons_self _ _, checkUserRules_fst p u0 rules0⟩
      · exact ⟨ur.2, List.mem_cons_of_mem _ ht, rfl⟩
    · rw [if_neg hr]
      intro ur hur
      simp only at hur
      rcases List.mem_cons.mp hur with hh | ht
      · subst hh
        exact ⟨rules0, List.mem_cons_self _ _, checkUserRules_fst p u0 rules0⟩
      · obtain ⟨rules, hmem, heq⟩ := ih ur ht
        exact ⟨rules, List.mem_cons_of_mem _ hmem, heq⟩

lemma nodupKeys_cycle (p : PriceOracle) (st : MonState) (hnd : nodupKeys st) :
    nodupKeys (checkAllMonitors p st).1 := by
  unfold checkAllMonitors
  by_cases hr : (checkUsers p st).2.2
  · rw [if_pos hr]
    exact hnd
  · rw [if_neg hr]
    constructor
    · rw [checkUsers_fst]
      exact hnd.1
    · intro ur hur
      obtain ⟨rules, hmem, heq⟩ := checkUsers_shape p st ur hur
      rw [heq]
      exact hnd.2 (ur.1, rules) hmem

lemma runCycles_skip (ps : List PriceOracle) (st : MonState) (uid mid : String)
    (md : MonitorData)
    (hnd : nodupKeys st)
    (hfind : findEntry uid mid st = some md)
    (hina : md.is_active = false) :
    findEntry uid mid (runCycles ps st).1 = some md ∧
      ∀ n ∈ (runCycles ps st).2, ¬(n.uid = uid ∧ n.mid = mid) := by
  induction ps generalizing st with
  | nil =>
    refine ⟨hfind, ?_⟩
    intro n hn
    simp [runCycles] at hn
  | cons p ps ih =>
    have hstep : stepRule p uid mid md = (md, none, false) :=
      stepRule_inactive p uid mid md hina
    obtain ⟨hf1, hn1⟩ := cycle_skip p st uid mid md hnd hfind hstep
    have hnd1 : nodupKeys (checkAllMonitors p st).1 := nodupKeys_cycle p st hnd
    obtain ⟨hf2, hn2⟩ := ih (checkAllMonitors p st).1 hnd1 hf1
    refine ⟨hf2, ?_⟩
    intro n hn
    simp only [runCycles] at hn
    rcases List.mem_append.mp hn with hl | hr
    · exact hn1 n hl
    · exact hn2 n hr

/-- C4: a rule whose price fetch fails in a scan cycle is left completely
unchanged by the cycle (same stored record, active flag included) and no
notification is produced for it. -/
theorem claim_C4_fetch_failure_skips_rule (p : PriceOracle) (st : MonState)
    (uid mid : String) (md : MonitorData)
    (hnd : nodupKeys st)
    (hfind : findEntry uid mid st = some md)
    (hp : p md.symbol md.asset_type = none) :
    findEntry uid mid (checkAllMonitors p st).1 = some md ∧
      ∀ n ∈ (checkAllMonitors p st).2, ¬(n.uid = uid ∧ n.mid = mid) :=
  cycle_skip p st uid mid md hnd hfind (stepRule_price_none p uid mid md hp)

/-- C4 witness: an active BTCUSDT rule whose price oracle reports no price
survives a scan cycle unchanged with no notification. -/
theorem claim_C4_fetch_failure_skips_rule_witness :
    findEntry "u" "m" (checkAllMonitors (fun _ _ => none)
      [("u", [("m",
        { symbol := codes "BTCUSDT", asset_type := "spot", target_price := 100,
          direction := "down", created_at := 0, is_active := true })])]).1 = some
      { symbol := codes "BTCUSDT", asset_type := "spot", target_price := 100,
        direction := "down", created_at := 0, is_active := true } ∧
    ∀ n ∈ (checkAllMonitors (fun _ _ => none)
      [("u", [("m",
        { symbol := codes "BTCUSDT", asset_type := "spot", target_price := 100,
          direction := "down", created_at := 0, is_active := true })])]).2,
      ¬(n.uid = "u" ∧ n.mid = "m") :=
  claim_C4_fetch_failure_skips_rule (fun _ _ => none)
    [("u", [("m",
      { symbol := codes "BTCUSDT", asset_type := "spot", target_price := 100,
        direction := "down", created_at := 0, is_active := true })])]
    "u" "m"
    { symbol := codes "BTCUSDT", asset_type := "spot", target_price := 100,
      direction := "down", created_at := 0, is_active := true }
    (by constructor <;> decide) (by decide) rfl

lemma checkUserRules_no_abort (p : PriceOracle) (u : String) (rules : UserMonitors)
    (hv : ∀ mm ∈ rules, mm.2.asset_type ∈ validAssetTypes) :
    (checkUserRules p u rules).2.2 = false := by
  induction rules with
  | nil => rfl
  | cons hd t ih =>
    obtain ⟨m0, md0⟩ := hd
    rw [checkUserRules_cons]
    have hr : (stepRule p u m0 md0).2.2 = false :=
      stepRule_valid_not_raised p u m0 md0 (hv (m0, md0) (List.mem_cons_self _ _))
    rw [if_neg (by simp [hr])]
    exact ih fun mm hmm => hv mm (List.mem_cons_of_mem _ hmm)

lemma checkUsers_no_abort (p : PriceOracle) (st : MonState)
    (hv : validTypesState st) : (checkUsers p st).2.2 = false := by
  induction st with
  | nil => rfl
  | cons hd t ih =>
    obtain ⟨u0, rules0⟩ := hd
    rw [checkUsers_cons]
    have hr : (checkUserRules p u0 rules0).2.2 = false :=
      checkUserRules_no_abort p u0 rules0
        (fun mm hmm => hv (u0, rules0) (List.mem_cons_self _ _) mm hmm)
    rw [if_neg (by simp [hr])]
    exact ih fun ur hur mm hmm => hv ur (List.mem_cons_of_mem _ hur) mm hmm

lemma checkUserRules_alookup (p : PriceOracle) (u : String) (rules : UserMonitors)
    (mid : String) (md : MonitorData)
    (hna : (checkUserRules p u rules).2.2 = false)
    (hl : alookup mid rules = some md) :
    alookup mid (checkUserRules p u rules).1 = some (stepRule p u mid md).1 := by
  induction rules with
  | nil => simp [alookup] at hl
  | cons hd t ih =>
    obtain ⟨m0, md0⟩ := hd
    rw [alookup_cons] at hl
    rw [checkUserRules_cons] at hna ⊢
    by_cases hr : (stepRule p u m0 md0).2.2
    · rw [if_pos hr] at hna
      simp at hna
    · rw [if_neg hr] at hna ⊢
      simp only at hna ⊢
      by_cases hm : mid = m0
      · rw [if_pos hm] at hl
        have hmd : md0 = md := Option.some.inj hl
        subst hmd
        subst hm
        rw [alookup_cons, if_pos rfl]
      · rw [if_neg hm] at hl
        rw [alookup_cons, if_neg hm]
        exact ih hna hl

lemma checkUsers_findEntry (p : PriceOracle) (st : MonState) (uid mid : String)
    (md : MonitorData)
    (hna : (checkUsers p st).2.2 = false)
    (hfind : findEntry uid mid st = some md) :
    findEntry uid mid (checkUsers p st).1 = some (stepRule p uid mid md).1 := by
  induction st with
  | nil => simp [findEntry, alookup] at hfind
  | cons hd t ih =>
    obtain ⟨u0, rules0⟩ := hd
    unfold findEntry at hfind ⊢
    rw [alookup_cons] at hfind
    rw [checkUsers_cons] at hna ⊢
    by_cases hr : (checkUserRules p u0 rules0).2.2
    · rw [if_pos hr] at hna
      simp at hna
    · rw [if_neg hr] at hna ⊢
      simp only at hna ⊢
      by_cases hu : uid = u0
      · rw [if_pos hu] at hfind
        simp only [Option.some_bind] at hfind
        subst hu
        rw [alookup_cons, if_pos rfl, Option.some_bind]
        exact checkUserRules_alookup p uid rules0 mid md (by simpa using hr) hfind
      · rw [if_neg hu] at hfind
        rw [alookup_cons, if_neg hu]
        exact ih hna hfind

/-- C2: fired is a terminal state.  In a well-formed registry (unique dict
keys, valid asset classes), any rule for which a scan cycle emits a
notification is marked inactive in the state persisted by that cycle, and
no later sequence of scan cycles - whatever the prices do - ever emits
another notification for that rule or reactivates it. -/
theorem claim_C2_fired_is_terminal (p : PriceOracle) (ps : List PriceOracle)
    (st : MonState) (n : Notification)
    (hv : validTypesState st) (hnd : nodupKeys st)
    (hn : n ∈ (checkAllMonitors p st).2) :
    ∃ md', findEntry n.uid n.mid (checkAllMonitors p st).1 = some md' ∧
      md'.is_active = false ∧
      findEntry n.uid n.mid (runCycles ps (checkAllMonitors p st).1).1 = some md' ∧
      ∀ n' ∈ (runCycles ps (checkAllMonitors p st).1).2,
        ¬(n'.uid = n.uid ∧ n'.mid = n.mid) := by
  have hna : (checkUsers p st).2.2 = false := checkUsers_no_abort p st hv
  rw [checkAllMonitors_notifs] at hn
  obtain ⟨ur, hur, mm, hmm, hsome⟩ := checkUsers_notif_source p st n hn
  obtain ⟨hu, hm, hact, hfst⟩ := stepRule_notif p ur.1 mm.1 mm.2 n hsome
  have h1 : alookup ur.1 st = some ur.2 := mem_alookup_of_nodup hur hnd.1
  have h2 : alookup mm.1 ur.2 = some mm.2 := mem_alookup_of_nodup hmm (hnd.2 ur hur)
  have hfind : findEntry n.uid n.mid st = some mm.2 := by
    unfold findEntry
    rw [hu, hm, h1, Option.some_bind]
    exact h2
  have hstate : (checkAllMonitors p st).1 = (checkUsers p st).1 := by
    unfold checkAllMonitors
    rw [if_neg (by simp [hna])]
  have hf1 : findEntry n.uid n.mid (checkAllMonitors p st).1 =
      some (stepRule p n.uid n.mid mm.2).1 := by
    rw [hstate]
    exact checkUsers_findEntry p st n.uid n.mid mm.2 hna hfind
  have hstep1 : (stepRule p n.uid n.mid mm.2).1 = { mm.2 with is_active := false } := by
    rw [hu, hm]
    exact hfst
  rw [hstep1] at hf1
  have hnd1 := nodupKeys_cycle p st hnd
  obtain ⟨hf2, hn2⟩ := runCycles_skip ps (checkAllMonitors p st).1 n.uid n.mid
    { mm.2 with is_active := false } hnd1 hf1 rfl
  exact ⟨{ mm.2 with is_active := false }, hf1, rfl, hf2, hn2⟩

/-- C2 witness: a BTCUSDT up-monitor with target 10 fires at price 50; it
is inactive in the persisted state and two further cycles with the price
oscillating to 5 and back to 100 never notify it again. -/
theorem claim_C2_fired_is_terminal_witness :
    ∃ md', findEntry (Notification.uid ⟨"u", "m", codes "BTCUSDT", 50⟩)
        (Notification.mid ⟨"u", "m", codes "BTCUSDT", 50⟩)
        (checkAllMonitors (fun _ _ => some 50)
          [("u", [("m",
            { symbol := codes "BTCUSDT", asset_type := "spot", target_price := 10,
              direction := "up", created_at := 0, is_active := true })])]).1 =
          some md' ∧
      md'.is_active = false ∧
      findEntry (Notification.uid ⟨"u", "m", codes "BTCUSDT", 50⟩)
        (Notification.mid ⟨"u", "m", codes "BTCUSDT", 50⟩)
        (runCycles [fun _ _ => some 5, fun _ _ => some 100]
          (checkAllMonitors (fun _ _ => some 50)
            [("u", [("m",
              { symbol := codes "BTCUSDT", asset_type := "spot", target_price := 10,
                direction := "up", created_at := 0, is_active := true })])]).1).1 =
          some md' ∧
      ∀ n' ∈ (runCycles [fun _ _ => some 5, fun _ _ => some 100]
          (checkAllMonitors (fun _ _ => some 50)
            [("u", [("m",
              { symbol := codes "BTCUSDT", asset_type := "spot", target_price := 10,
                direction := "up", created_at := 0, is_active := true })])]).1).2,
        ¬(n'.uid = Notification.uid ⟨"u", "m", codes "BTCUSDT", 50⟩ ∧
          n'.mid = Notification.mid ⟨"u", "m", codes "BTCUSDT", 50⟩) :=
  claim_C2_fired_is_terminal (fun _ _ => some 50)
    [fun _ _ => some 5, fun _ _ => some 100]
    [("u", [("m",
      { symbol := codes "BTCUSDT", asset_type := "spot", target_price := 10,
        direction := "up", created_at := 0, is_active := true })])]
    ⟨"u", "m", codes "BTCUSDT", 50⟩
    (by unfold validTypesState; decide) (by constructor <;> decide) (by decide)

/-- C3 evidence: per-rule evaluation is NOT isolated.  In a snapshot where
user u has two active rules, the first with an asset type outside the
display dictionary (its trigger branch raises KeyError) and the second a
valid spot rule whose trigger condition holds at the fetched price 5, the
scan cycle aborts at the first rule: it emits no notification at all and
persists no state change, so the second rule is not evaluated.  The same
second rule alone fires as expected in an otherwise identical cycle. -/
theorem claim_C3_exception_aborts_scan :
    triggerFires "down" 5 100 = true ∧
    checkAllMonitors (fun _ _ => some 5)
      [("u", [("m1",
        { symbol := codes "AAAUSDT", asset_type := "unknown", target_price := 100,
          direction := "down", created_at := 0, is_active := true }),
        ("m2",
        { symbol := codes "BTCUSDT", asset_type := "spot", target_price := 100,
          direction := "down", created_at := 0, is_active := true })])] =
      ([("u", [("m1",
        { symbol := codes "AAAUSDT", asset_type := "unknown", target_price := 100,
          direction := "down", created_at := 0, is_active := true }),
        ("m2",
        { symbol := codes "BTCUSDT", asset_type := "spot", target_price := 100,
          direction := "down", created_at := 0, is_active := true })])], []) ∧
    checkAllMonitors (fun _ _ => some 5)
      [("u", [("m2",
        { symbol := codes "BTCUSDT", asset_type := "spot", target_price := 100,
          direction := "down", created_at := 0, is_active := true })])] =
      ([("u", [("m2",
        { symbol := codes "BTCUSDT", asset_type := "spot", target_price := 100,
          direction := "down", created_at := 0, is_active := false })])],
       [⟨"u", "m2", codes "BTCUSDT", 5⟩]) := by decide

lemma stepRule_fires (p : PriceOracle) (u m : String) (md : MonitorData) (cur : Rat)
    (hact : md.is_active = true)
    (hp : p md.symbol md.asset_type = some cur)
    (ht : triggerFires md.direction cur md.target_price = true)
    (hcm : md.asset_type ∈ validAssetTypes) :
    stepRule p u m md =
      ({ md with is_active := false }, some ⟨u, m, md.symbol, cur⟩, false) := by
  simp [stepRule, hact, hp, ht, hcm]

lemma checkUserRules_notif_mem (p : PriceOracle) (u : String) (rules : UserMonitors)
    (mid : String) (md : MonitorData) (n : Notification)
    (hna : (checkUserRules p u rules).2.2 = false)
    (hl : alookup mid rules = some md)
    (hsome : (stepRule p u mid md).2.1 = some n) :
    n ∈ (checkUserRules p u rules).2.1 := by
  induction rules with
  | nil => simp [alookup] at hl
  | cons hd t ih =>
    obtain ⟨m0, md0⟩ := hd
    rw [alookup_cons] at hl
    rw [checkUserRules_cons] at hna ⊢
    by_cases hr : (stepRule p u m0 md0).2.2
    · rw [if_pos hr] at hna
      simp at hna
    · rw [if_neg hr] at hna ⊢
      simp only at hna ⊢
      by_cases hm : mid = m0
      · rw [if_pos hm] at hl
        have hmd : md0 = md := Option.some.inj hl
        subst hmd
        subst hm
        apply List.mem_append.mpr
        left
        rw [hsome]
        simp
      · rw [if_neg hm] at hl
        exact List.mem_append.mpr (Or.inr (ih hna hl))

lemma checkUsers_notif_mem (p : PriceOracle) (st : MonState) (uid mid : String)
    (md : MonitorData) (n : Notification)
    (hna : (checkUsers p st).2.2 = false)
    (hfind : findEntry uid mid st = some md)
    (hsome : (stepRule p uid mid md).2.1 = some n) :
    n ∈ (checkUsers p st).2.1 := by
  induction st with
  | nil => simp [findEntry, alookup] at hfind
  | cons hd t ih =>
    obtain ⟨u0, rules0⟩ := hd
    unfold findEntry at hfind
    rw [alookup_cons] at hfind
    rw [checkUsers_cons] at hna ⊢
    by_cases hr : (checkUserRules p u0 rules0).2.2
    · rw [if_pos hr] at hna
      simp at hna
    · rw [if_neg hr] at hna ⊢
      simp only at hna ⊢
      by_cases hu : uid = u0
      · rw [if_pos hu] at hfind
        simp only [Option.some_bind] at hfind
        subst hu
        exact List.mem_append.mpr (Or.inl
          (checkUserRules_notif_mem p uid rules0 mid md n (by simpa using hr)
            hfind hsome))
      · rw [if_neg hu] at hfind
        exact List.mem_append.mpr (Or.inr (ih hna hfind))

lemma get_price_noprice_zero (cfg : PriceConfig) (fetch : HttpOracle)
    (symbol ns : List Nat) (asset_type : String)
    (hfetch : ∀ url s, fetch url s = ⟨200, none⟩)
    (hns : normalize_symbol symbol = some ns)
    (hv : asset_type ∈ validAssetTypes) :
    get_price cfg fetch symbol asset_type = some 0 := by
  unfold get_price
  rw [hns]
  simp only [validAssetTypes, List.mem_cons, List.not_mem_nil, or_false] at hv
  rcases hv with h | h | h | h <;> subst h <;> simp [hfetch]

/-- C10: when every HTTP response has status 200 but no price field in its
body, get_price returns 0.0 instead of reporting failure; consequently an
active direction-down rule (with a nonnegative target, as all created rules
have positive targets) in a well-formed registry is notified in that same
scan cycle at price 0. -/
theorem claim_C10_missing_price_field_yields_zero_and_triggers (cfg : PriceConfig)
    (fetch : HttpOracle) (st : MonState) (uid mid : String) (md : MonitorData)
    (ns : List Nat)
    (hfetch : ∀ url s, fetch url s = ⟨200, none⟩)
    (hv : validTypesState st)
    (hfind : findEntry uid mid st = some md)
    (hact : md.is_active = true)
    (hdir : md.direction = "down")
    (htgt : 0 ≤ md.target_price)
    (hns : normalize_symbol md.symbol = some ns) :
    get_price cfg fetch md.symbol md.asset_type = some 0 ∧
    (⟨uid, mid, md.symbol, 0⟩ : Notification) ∈
      (checkAllMonitors (fun s t => get_price cfg fetch s t) st).2 := by
  have hfind2 := hfind
  unfold findEntry at hfind2
  cases har : alookup uid st with
  | none =>
    rw [har] at hfind2
    simp at hfind2
  | some rules =>
    rw [har] at hfind2
    simp only [Option.some_bind] at hfind2
    have hurmem : (uid, rules) ∈ st := alookup_mem har
    have hmmmem : (mid, md) ∈ rules := alookup_mem hfind2
    have hvt : md.asset_type ∈ validAssetTypes := hv (uid, rules) hurmem (mid, md) hmmmem
    have hgp : get_price cfg fetch md.symbol md.asset_type = some 0 :=
      get_price_noprice_zero cfg fetch md.symbol ns md.asset_type hfetch hns hvt
    refine ⟨hgp, ?_⟩
    have ht : triggerFires md.direction 0 md.target_price = true := by
      simp [triggerFires, hdir, htgt]
    have hstep : stepRule (fun s t => get_price cfg fetch s t) uid mid md =
        ({ md with is_active := false }, some ⟨uid, mid, md.symbol, 0⟩, false) :=
      stepRule_fires (fun s t => get_price cfg fetch s t) uid mid md 0 hact hgp ht hvt
    have hna : (checkUsers (fun s t => get_price cfg fetch s t) st).2.2 = false :=
      checkUsers_no_abort (fun s t => get_price cfg fetch s t) st hv
    rw [checkAllMonitors_notifs]
    exact checkUsers_notif_mem (fun s t => get_price cfg fetch s t) st uid mid md
      ⟨uid, mid, md.symbol, 0⟩ hna hfind (by rw [hstep])

/-- C10 witness: a spot BTCUSDT down-rule with target 100 in a registry
scanned against a gateway whose every response is HTTP 200 with no price
field gets price 0.0 and a notification at price 0 in that cycle. -/
theorem claim_C10_missing_price_field_yields_zero_and_triggers_witness :
    get_price ⟨"S", "F", "A"⟩ (fun _ _ => ⟨200, none⟩) (codes "BTCUSDT") "spot" =
      some 0 ∧
    (⟨"u", "m", codes "BTCUSDT", 0⟩ : Notification) ∈
      (checkAllMonitors
        (fun s t => get_price ⟨"S", "F", "A"⟩ (fun _ _ => ⟨200, none⟩) s t)
        [("u", [("m",
          { symbol := codes "BTCUSDT", asset_type := "spot", target_price := 100,
            direction := "down", created_at := 0, is_active := true })])]).2 :=
  claim_C10_missing_price_field_yields_zero_and_triggers ⟨"S", "F", "A"⟩
    (fun _ _ => ⟨200, none⟩)
    [("u", [("m",
      { symbol := codes "BTCUSDT", asset_type := "spot", target_price := 100,
        direction := "down", created_at := 0, is_active := true })])]
    "u" "m"
    { symbol := codes "BTCUSDT", asset_type := "spot", target_price := 100,
      direction := "down", created_at := 0, is_active := true }
    (codes "BTCUSDT")
    (fun _ _ => rfl) (by unfold validTypesState; decide) (by decide) rfl rfl
    (by decide) (by decide)


end BinancePlugin
